import Mathlib

/-!
Verification development for the axiom-go ingestion pipeline and HTTP
transport layer (files `axiom/client.go` and `axiom/datasets.go`).

The Go code is shallowly embedded: byte streams are `List Char` (the code
works on UTF-8 streams rune by rune where it inspects content), external
collaborators (the zstd compressor, the JSON decoder of the standard
library, the HTTP round tripper) are function parameters, and goroutine
bodies are modelled as the sequence of observable actions they perform.
-/

namespace AxiomGo

/-! ## JSON values and the encoding produced by `encoding/json`

`Event` in Go is `map[string]any` (datasets.go line 60).  The encoder
goroutines of `IngestEvents` and `IngestChannel` serialize each event with
`json.Encoder.Encode`, which writes the JSON encoding of the value followed
by a single newline.  The model represents a JSON value as an inductive
tree; an event is represented by its object field list (Go serializes map
keys in sorted order, the model takes the field list as it is serialized).
-/

mutual
/-- A JSON value as produced by `encoding/json` for the `any` values stored
in an `Event`. -/
inductive JValue : Type where
  | jnull : JValue
  | jbool : Bool → JValue
  | jnum : Int → JValue
  | jstr : String → JValue
  | jarr : JArr → JValue
  | jobj : JObj → JValue

/-- A JSON array (list of values). -/
inductive JArr : Type where
  | nil : JArr
  | cons : JValue → JArr → JArr

/-- A JSON object (field list). -/
inductive JObj : Type where
  | nil : JObj
  | cons : String → JValue → JObj → JObj
end

/-- Decimal digit character, as written by Go's integer formatting. -/
def digitChr : Nat → Char
  | 0 => '0' | 1 => '1' | 2 => '2' | 3 => '3' | 4 => '4'
  | 5 => '5' | 6 => '6' | 7 => '7' | 8 => '8' | _ => '9'

/-- Lowercase hexadecimal digit character, as used by `encoding/json` in
`\u00xx` escapes. -/
def hexChr : Nat → Char
  | 0 => '0' | 1 => '1' | 2 => '2' | 3 => '3' | 4 => '4'
  | 5 => '5' | 6 => '6' | 7 => '7' | 8 => '8' | 9 => '9'
  | 10 => 'a' | 11 => 'b' | 12 => 'c' | 13 => 'd' | 14 => 'e' | _ => 'f'

/-- Decimal digits of a natural number, most significant first. -/
def natChars (n : Nat) : List Char :=
  if h : n < 10 then [digitChr n]
  else natChars (n / 10) ++ [digitChr (n % 10)]
  decreasing_by exact Nat.div_lt_self (by omega) (by omega)

/-- Decimal representation of an integer. -/
def intChars : Int → List Char
  | .ofNat n => natChars n
  | .negSucc n => '-' :: natChars (n + 1)

/-- Escaping of one character inside a JSON string, following
`encoding/json` with its default HTML escaping (quotes and backslashes get
a backslash escape, `\n`, `\r` and `\t` their short escapes, remaining
control characters and the HTML-relevant characters a `\u00xx` escape, and
U+2028/U+2029 a `\u202x` escape). -/
def escChar (c : Char) : List Char :=
  if c = '"' then ['\\', '"']
  else if c = '\\' then ['\\', '\\']
  else if c = '\n' then ['\\', 'n']
  else if c = '\r' then ['\\', 'r']
  else if c = '\t' then ['\\', 't']
  else if c.toNat < 0x20 then
    ['\\', 'u', '0', '0', hexChr (c.toNat / 16), hexChr (c.toNat % 16)]
  else if c = '<' then ['\\', 'u', '0', '0', '3', 'c']
  else if c = '>' then ['\\', 'u', '0', '0', '3', 'e']
  else if c = '&' then ['\\', 'u', '0', '0', '2', '6']
  else if c.toNat = 0x2028 then ['\\', 'u', '2', '0', '2', '8']
  else if c.toNat = 0x2029 then ['\\', 'u', '2', '0', '2', '9']
  else [c]

/-- Serialization of a JSON string literal. -/
def jserString (s : String) : List Char :=
  '"' :: (s.data.map escChar).flatten ++ ['"']

mutual
/-- Serialization of a JSON value, as written by `encoding/json`. -/
def jser : JValue → List Char
  | .jnull => "null".data
  | .jbool true => "true".data
  | .jbool false => "false".data
  | .jnum i => intChars i
  | .jstr s => jserString s
  | .jarr a => '[' :: jserArr a ++ [']']
  | .jobj o => '{' :: jserObj o ++ ['\x7d']

/-- Serialization of the comma-separated elements of a JSON array. -/
def jserArr : JArr → List Char
  | .nil => []
  | .cons v .nil => jser v
  | .cons v (.cons w rest) => jser v ++ ',' :: jserArr (.cons w rest)

/-- Serialization of the comma-separated fields of a JSON object. -/
def jserObj : JObj → List Char
  | .nil => []
  | .cons k v .nil => jserString k ++ ':' :: jser v
  | .cons k v (.cons k2 v2 rest) =>
      jserString k ++ ':' :: jser v ++ ',' :: jserObj (.cons k2 v2 rest)
end

/-- A character list is newline free. -/
def nlFree (l : List Char) : Bool := l.all fun c => c != '\n'

theorem nlFree_append (a b : List Char) :
    nlFree (a ++ b) = (nlFree a && nlFree b) := by
  simp [nlFree, List.all_append]

theorem nlFree_cons (c : Char) (l : List Char) :
    nlFree (c :: l) = ((c != '\n') && nlFree l) := by
  simp [nlFree]

theorem nlFree_singleton (c : Char) : nlFree [c] = (c != '\n') := by
  simp [nlFree]

theorem digitChr_nlFree (n : Nat) : (digitChr n != '\n') = true := by
  unfold digitChr
  split <;> rfl

theorem hexChr_nlFree (n : Nat) : (hexChr n != '\n') = true := by
  unfold hexChr
  split <;> rfl

theorem natChars_nlFree (n : Nat) : nlFree (natChars n) = true := by
  induction n using Nat.strong_induction_on with
  | _ n ih =>
    rw [natChars]
    split
    · rw [nlFree_singleton]
      exact digitChr_nlFree n
    · rw [nlFree_append]
      have h1 := ih (n / 10) (Nat.div_lt_self (by omega) (by omega))
      rw [h1, Bool.true_and, nlFree_singleton]
      exact digitChr_nlFree (n % 10)

theorem intChars_nlFree (i : Int) : nlFree (intChars i) = true := by
  cases i with
  | ofNat n => simpa [intChars] using natChars_nlFree n
  | negSucc n =>
    rw [intChars, nlFree_cons, natChars_nlFree]
    decide

set_option maxHeartbeats 2000000 in
theorem escChar_nlFree (c : Char) : nlFree (escChar c) = true := by
  unfold escChar
  split
  · decide
  split
  · decide
  split
  · decide
  split
  · decide
  split
  · decide
  split
  · rw [nlFree_cons, nlFree_cons, nlFree_cons, nlFree_cons, nlFree_cons,
        nlFree_singleton, hexChr_nlFree, hexChr_nlFree]
    decide
  split
  · decide
  split
  · decide
  split
  · decide
  split
  · decide
  split
  · decide
  rw [nlFree_singleton, bne_iff_ne]
  assumption

theorem flatten_nlFree (L : List (List Char)) (h : ∀ x ∈ L, nlFree x = true) :
    nlFree L.flatten = true := by
  induction L with
  | nil => decide
  | cons a t ih =>
    rw [List.flatten_cons, nlFree_append]
    have ha := h a (by simp)
    have ht := ih (fun x hx => h x (by simp [hx]))
    rw [ha, ht]
    rfl

theorem jserString_nlFree (s : String) : nlFree (jserString s) = true := by
  rw [jserString, nlFree_append, nlFree_cons]
  have h : nlFree (s.data.map escChar).flatten = true := by
    apply flatten_nlFree
    intro x hx
    rw [List.mem_map] at hx
    obtain ⟨c, _, rfl⟩ := hx
    exact escChar_nlFree c
  rw [h]
  decide

mutual
theorem jser_nlFree : (v : JValue) → nlFree (jser v) = true
  | .jnull => by decide
  | .jbool true => by decide
  | .jbool false => by decide
  | .jnum i => by simpa [jser] using intChars_nlFree i
  | .jstr s => by simpa [jser] using jserString_nlFree s
  | .jarr a => by
      have h := jserArr_nlFree a
      simp only [jser]
      rw [nlFree_append, nlFree_cons, h, nlFree_singleton]
      decide
  | .jobj o => by
      have h := jserObj_nlFree o
      simp only [jser]
      rw [nlFree_append, nlFree_cons, h, nlFree_singleton]
      decide

theorem jserArr_nlFree : (a : JArr) → nlFree (jserArr a) = true
  | .nil => by decide
  | .cons v .nil => by simpa [jserArr] using jser_nlFree v
  | .cons v (.cons w rest) => by
      have h1 := jser_nlFree v
      have h2 := jserArr_nlFree (.cons w rest)
      simp only [jserArr]
      rw [nlFree_append, h1, Bool.true_and, nlFree_cons, h2]
      decide

theorem jserObj_nlFree : (o : JObj) → nlFree (jserObj o) = true
  | .nil => by decide
  | .cons k v .nil => by
      have h1 := jserString_nlFree k
      have h2 := jser_nlFree v
      simp only [jserObj]
      rw [nlFree_append, h1, Bool.true_and, nlFree_cons, h2]
      decide
  | .cons k v (.cons k2 v2 rest) => by
      have h1 := jserString_nlFree k
      have h2 := jser_nlFree v
      have h3 := jserObj_nlFree (.cons k2 v2 rest)
      simp only [jserObj]
      rw [nlFree_append, nlFree_append, h1, Bool.true_and, nlFree_cons, h2,
          nlFree_cons, h3]
      decide
end

/-! ## Newline-delimited framing -/

/-- Split a character stream at the first newline: the part before it and
the part after it (the newline itself is dropped). -/
def breakNl : List Char → List Char × List Char
  | [] => ([], [])
  | c :: rest =>
      if c = '\n' then ([], rest)
      else (c :: (breakNl rest).1, (breakNl rest).2)

theorem breakNl_snd_length : (l : List Char) → (breakNl l).2.length ≤ l.length
  | [] => by simp [breakNl]
  | c :: rest => by
      rw [breakNl]
      split
      · simp
      · simpa using Nat.le_succ_of_le (breakNl_snd_length rest)

theorem breakNl_snd_length_cons (c : Char) (rest : List Char) :
    (breakNl (c :: rest)).2.length ≤ rest.length := by
  rw [breakNl]
  split
  · simp
  · simpa using breakNl_snd_length rest

/-- The newline-delimited chunks of a character stream (NDJSON line
structure: each chunk is terminated by a newline, a trailing chunk without
a final newline also counts). -/
def linesNl : List Char → List (List Char)
  | [] => []
  | c :: rest => (breakNl (c :: rest)).1 :: linesNl (breakNl (c :: rest)).2
  termination_by l => l.length
  decreasing_by exact Nat.lt_succ_of_le (breakNl_snd_length_cons c rest)

theorem linesNl_nil : linesNl [] = [] := by
  rw [linesNl.eq_def]

theorem linesNl_cons (c : Char) (rest : List Char) :
    linesNl (c :: rest)
      = (breakNl (c :: rest)).1 :: linesNl (breakNl (c :: rest)).2 := by
  rw [linesNl.eq_def]

theorem breakNl_append_nl (l r : List Char) (h : nlFree l = true) :
    breakNl (l ++ '\n' :: r) = (l, r) := by
  induction l with
  | nil => simp [breakNl]
  | cons c t ih =>
    rw [nlFree_cons] at h
    have hc : ¬(c = '\n') := by
      intro hcn
      simp [hcn] at h
    have ht : nlFree t = true := (Bool.and_eq_true_iff.mp h).2
    simp [breakNl, hc, ih ht]

theorem linesNl_of_terminated_chunks (chunks : List (List Char))
    (h : ∀ x ∈ chunks, nlFree x = true) :
    linesNl ((chunks.map (· ++ ['\n'])).flatten) = chunks := by
  induction chunks with
  | nil => simpa using linesNl_nil
  | cons a t ih =>
    have ha : nlFree a = true := h a (by simp)
    have hflat : (((a :: t).map (· ++ ['\n'])).flatten)
        = a ++ '\n' :: ((t.map (· ++ ['\n'])).flatten) := by
      simp [List.flatten_cons]
    rw [hflat]
    have hbreak := breakNl_append_nl a ((t.map (· ++ ['\n'])).flatten) ha
    have ht := ih (fun x hx => h x (by simp [hx]))
    cases a with
    | nil =>
      simp only [List.nil_append] at hbreak ⊢
      rw [linesNl_cons, hbreak]
      simpa using ht
    | cons c rest =>
      rw [List.cons_append] at hbreak ⊢
      rw [linesNl_cons, hbreak]
      simpa using ht

/-! ## The encoder goroutine of `IngestEvents` (datasets.go lines 320-344)

The goroutine wraps the write end of an `io.Pipe` in a `zstd.Writer` and
runs `json.Encoder.Encode` for each event; `Encode` writes the JSON
serialization of the event followed by one newline.  The compressor is an
external library and enters the model as an abstract function together
with its inverse. -/

/-- The uncompressed byte stream that the encoder goroutine hands to the
zstd writer: for each event its JSON object serialization followed by a
newline, in input order. -/
def encoderStream (events : List JObj) : List Char :=
  (events.map (fun e => jser (.jobj e) ++ ['\n'])).flatten

/-- The request body produced by the encoder goroutine of `IngestEvents`:
the compressed NDJSON stream. -/
def ingestEventsBody (compress : List Char → List Char)
    (events : List JObj) : List Char :=
  compress (encoderStream events)

/-- Claim C1: for every slice of events (serialization of the modelled
JSON values always succeeds), decompressing the zstd stream produced by
the encoder goroutine of `IngestEvents` yields exactly one JSON object per
input event, as newline-delimited JSON, in input order. -/
theorem ingestEvents_body_is_ndjson_of_events
    (compress decompress : List Char → List Char)
    (hinv : ∀ s, decompress (compress s) = s)
    (events : List JObj) :
    linesNl (decompress (ingestEventsBody compress events))
      = events.map (fun e => jser (.jobj e)) := by
  rw [ingestEventsBody, hinv, encoderStream]
  have hmap : (events.map (fun e => jser (.jobj e) ++ ['\n']))
      = ((events.map (fun e => jser (.jobj e))).map (· ++ ['\n'])) := by
    simp [List.map_map]
  rw [hmap]
  apply linesNl_of_terminated_chunks
  intro x hx
  rw [List.mem_map] at hx
  obtain ⟨e, _, rfl⟩ := hx
  exact jser_nlFree (.jobj e)

/-- Witness for C1: the round trip evaluated on a concrete two-event slice
with the compressor instantiated by an invertible concrete function. -/
theorem ingestEvents_body_is_ndjson_of_events_witness :
    linesNl (List.reverse (ingestEventsBody List.reverse
        [JObj.cons "a" (.jstr "b") .nil, JObj.cons "c" (.jnum 3) .nil]))
      = [jser (.jobj (JObj.cons "a" (.jstr "b") .nil)),
         jser (.jobj (JObj.cons "c" (.jnum 3) .nil))] :=
  ingestEvents_body_is_ndjson_of_events
    List.reverse List.reverse (fun s => List.reverse_reverse s)
    [JObj.cons "a" (.jstr "b") .nil, JObj.cons "c" (.jnum 3) .nil]

/-! ## Content type and content encoding (datasets.go lines 34-57)

The `stringer`-generated `String()` values come from the line comments next
to the constants. -/

/-- ContentType describes the content type of the data to ingest. -/
inductive ContentType : Type where
  | json
  | ndjson
  | csv
deriving DecidableEq

/-- The `String()` value of a `ContentType` (generated from the line
comments at datasets.go lines 39-44). -/
def ContentType.toStr : ContentType → String
  | .json => "application/json"
  | .ndjson => "application/x-ndjson"
  | .csv => "text/csv"

/-- ContentEncoding describes the content encoding of the data to ingest. -/
inductive ContentEncoding : Type where
  | identity
  | gzip
  | zstd
deriving DecidableEq

/-- The `String()` value of a `ContentEncoding` (generated from the line
comments at datasets.go lines 52-56). -/
def ContentEncoding.toStr : ContentEncoding → String
  | .identity => ""
  | .gzip => "gzip"
  | .zstd => "zstd"

/-! ## DetectContentType (datasets.go lines 541-583)

The function reads runes from a `bufio.Reader` wrapped around the input.
Whitespace runes are consumed and skipped; the first non-whitespace rune
decides the content type (or an error) and is pushed back with
`UnreadRune`.  The returned reader is `io.MultiReader` of the still
buffered unread bytes and the rest of the original reader, which at the
stream level is the input from the first non-whitespace rune onward: the
consumed whitespace runes are no longer buffered and are not prepended.
The model works on the rune stream as a `List Char`. -/

/-- Go `unicode.IsSpace`: the Latin-1 white space characters and the
characters with Unicode property White_Space, by code point. -/
def goIsSpace (c : Char) : Bool :=
  c.toNat = 0x09 || c.toNat = 0x0A || c.toNat = 0x0B || c.toNat = 0x0C ||
  c.toNat = 0x0D || c.toNat = 0x20 || c.toNat = 0x85 || c.toNat = 0xA0 ||
  c.toNat = 0x1680 || (0x2000 ≤ c.toNat && c.toNat ≤ 0x200A) ||
  c.toNat = 0x2028 || c.toNat = 0x2029 || c.toNat = 0x202F ||
  c.toNat = 0x205F || c.toNat = 0x3000

/-- Go `unicode.IsLetter`, modelled on the ASCII range (where it holds
exactly for `A`-`Z` and `a`-`z`, code points 65-90 and 97-122); non-ASCII
Unicode letter categories are outside the inputs considered here. -/
def goIsLetter (c : Char) : Bool :=
  (65 ≤ c.toNat && c.toNat ≤ 90) || (97 ≤ c.toNat && c.toNat ≤ 122)

theorem goIsLetter_not_space (c : Char) (h : goIsLetter c = true) :
    goIsSpace c = false := by
  rw [Bool.eq_false_iff]
  intro hs
  unfold goIsLetter at h
  unfold goIsSpace at hs
  simp only [Bool.or_eq_true, Bool.and_eq_true, decide_eq_true_eq] at h hs
  omega

/-- `DetectContentType` on the rune stream: the detection loop of
datasets.go lines 546-571 followed by the reconstruction of the returned
reader (lines 575-580).  Returns the detected content type together with
the stream the returned reader yields. -/
def detectContentType : List Char → Except String (ContentType × List Char)
  | [] => .error "couldn\x27t find beginning of supported ingestion format"
  | c :: rest =>
    if c = '[' then .ok (.json, c :: rest)
    else if c = '{' then .ok (.ndjson, c :: rest)
    else if goIsLetter c || c = '"' then .ok (.csv, c :: rest)
    else if goIsSpace c then detectContentType rest
    else .error "cannot determine content type"

/-- Claim C6: `DetectContentType` skips leading whitespace and classifies
the stream by its first non-whitespace character — `[` yields JSON, an
opening brace yields NDJSON, a letter or `"` yields CSV, any other
character fails with "cannot determine content type" — and a stream
exhausted before any non-whitespace byte fails with "couldn't find
beginning of supported ingestion format". -/
theorem detectContentType_classifies (ws rest : List Char) (c : Char)
    (hws : ∀ x ∈ ws, goIsSpace x = true) (hc : goIsSpace c = false) :
    (detectContentType (ws ++ c :: rest)
      = if c = '[' then .ok (.json, c :: rest)
        else if c = '{' then .ok (.ndjson, c :: rest)
        else if goIsLetter c || c = '"' then .ok (.csv, c :: rest)
        else .error "cannot determine content type")
    ∧ detectContentType ws
      = .error "couldn\x27t find beginning of supported ingestion format" := by
  induction ws with
  | nil =>
    constructor
    · rw [List.nil_append, detectContentType]
      split
      · rfl
      split
      · rfl
      split
      · rfl
      split
      · rename_i hsp
        rw [hc] at hsp
        exact absurd hsp (by decide)
      · rfl
    · rfl
  | cons w t ih =>
    have hw : goIsSpace w = true := hws w (by simp)
    have hwbr : ¬(w = '[') := by
      intro hcontra
      rw [hcontra] at hw
      exact absurd hw (by decide)
    have hwob : ¬(w = '{') := by
      intro hcontra
      rw [hcontra] at hw
      exact absurd hw (by decide)
    have hwlet : ¬(goIsLetter w || w = '"') = true := by
      intro hcontra
      rcases Bool.or_eq_true_iff.mp hcontra with h1 | h1
      · rw [goIsLetter_not_space w h1] at hw
        exact Bool.false_ne_true hw
      · have hq : w = '"' := of_decide_eq_true h1
        rw [hq] at hw
        exact absurd hw (by decide)
    have htail := ih (fun x hx => hws x (by simp [hx]))
    constructor
    · rw [List.cons_append, detectContentType]
      simp only [hwbr, if_false, hwob, hwlet, hw, if_true]
      exact htail.1
    · rw [detectContentType]
      simp only [hwbr, if_false, hwob, hwlet, hw, if_true]
      exact htail.2

/-- Witness for C6: the classification evaluated on the concrete inputs of
the specification — `[` input gives JSON, brace input gives NDJSON, a CSV
header gives CSV, `123` and the empty input give the two errors. -/
theorem detectContentType_classifies_witness :
    detectContentType ('[' :: "1]".data) = .ok (.json, '[' :: "1]".data)
    ∧ detectContentType ("Year,Make".data) = .ok (.csv, "Year,Make".data)
    ∧ detectContentType (" 123".data) = .error "cannot determine content type"
    ∧ detectContentType []
      = .error "couldn\x27t find beginning of supported ingestion format" := by
  refine ⟨?_, ?_, ?_, ?_⟩
  · have h := (detectContentType_classifies [] "1]".data '['
      (by intro x hx; cases hx) (by decide)).1
    simpa using h
  · have h := (detectContentType_classifies [] "ear,Make".data 'Y'
      (by intro x hx; cases hx) (by decide)).1
    simpa using h
  · have h := (detectContentType_classifies [' '] "23".data '1'
      (by intro x hx; simp at hx; rw [hx]; decide) (by decide)).1
    simpa using h
  · exact (detectContentType_classifies [] [] 'x'
      (by intro x hx; cases hx) (by decide)).2

/-- Counterexample for C3: on the accepted input consisting of a space
followed by `[`, the stream yielded by the returned reader is just `[` —
the inspected and skipped leading whitespace byte is not reproduced, so
re-reading does not yield the original byte sequence. -/
theorem detectContentType_drops_leading_whitespace :
    detectContentType (' ' :: ['[']) = .ok (.json, ['['])
    ∧ ['['] ≠ ' ' :: ['['] := by
  constructor
  · rfl
  · decide

/-- Claim C3 (amended): for every input that `DetectContentType` accepts,
the returned reader yields the input with its maximal leading-whitespace
prefix removed; in particular it yields exactly the original input
whenever the input does not start with whitespace. -/
theorem detectContentType_returns_stream_after_whitespace
    (s r : List Char) (t : ContentType)
    (h : detectContentType s = .ok (t, r)) :
    r = s.dropWhile goIsSpace := by
  induction s with
  | nil =>
    rw [detectContentType] at h
    cases h
  | cons c rest ih =>
    rw [detectContentType] at h
    rw [List.dropWhile_cons]
    by_cases h1 : c = '['
    · rw [if_pos h1] at h
      have hsp : goIsSpace c = false := by
        rw [h1]
        decide
      rw [hsp, if_neg (by decide)]
      cases h
      rfl
    rw [if_neg h1] at h
    by_cases h2 : c = '{'
    · rw [if_pos h2] at h
      have hsp : goIsSpace c = false := by
        rw [h2]
        decide
      rw [hsp, if_neg (by decide)]
      cases h
      rfl
    rw [if_neg h2] at h
    by_cases h3 : (goIsLetter c || c = '"') = true
    · rw [if_pos h3] at h
      have hsp : goIsSpace c = false := by
        rcases Bool.or_eq_true_iff.mp h3 with h4 | h4
        · exact goIsLetter_not_space c h4
        · have hq : c = '"' := of_decide_eq_true h4
          rw [hq]
          decide
      rw [hsp, if_neg (by decide)]
      cases h
      rfl
    rw [if_neg h3] at h
    by_cases h4 : goIsSpace c = true
    · rw [if_pos h4] at h
      rw [h4, if_pos rfl]
      exact ih h
    · rw [if_neg h4] at h
      cases h

/-- Witness for C3 (amended): evaluated on the accepted concrete input
consisting of a space followed by `[2]`. -/
theorem detectContentType_returns_stream_after_whitespace_witness :
    "[2]".data = (" [2]".data).dropWhile goIsSpace :=
  detectContentType_returns_stream_after_whitespace
    (" [2]".data) ("[2]".data) .json (by rfl)

/-! ## Ingest status and the request plans of `IngestEvents` and
`IngestChannel` (datasets.go lines 298-430)

`ingest.Status` lives in the `axiom/ingest` package, which is not part of
the embedded sources; its fields follow the JSON wire schema given in the
specification. -/

/-- Modelled from the spec: one entry of `IngestStatus.Failures`, a
per-event failure descriptor with timestamp and error message (the
`ingest.Failure` type is declared in a package not included under the
embedded sources). -/
structure Failure where
  timestamp : String
  error : String
deriving DecidableEq

/-- Modelled from the spec: `ingest.Status` with the JSON wire schema
`ingested, failed, failures, processedBytes, blocksCreated, walLength`
(the type is declared in a package not included under the embedded
sources). -/
structure IngestStatus where
  ingested : Nat
  failed : Nat
  failures : List Failure
  processedBytes : Nat
  blocksCreated : Nat
  walLength : Nat
deriving DecidableEq

/-- The Go zero value `ingest.Status{}`: every count zero, no failures. -/
def IngestStatus.zero : IngestStatus :=
  { ingested := 0, failed := 0, failures := [], processedBytes := 0,
    blocksCreated := 0, walLength := 0 }

/-- The observable outcome of an ingest call with respect to the HTTP
layer: either the call returns a status without issuing a request, or it
issues one request with the given `Content-Type` and `Content-Encoding`
headers and body. -/
inductive IngestPlan : Type where
  | noRequest (status : IngestStatus)
  | request (contentType contentEncoding : String) (body : List Char)

/-- Whether the plan issues an HTTP request. -/
def IngestPlan.isRequest : IngestPlan → Bool
  | .noRequest _ => false
  | .request _ _ _ => true

/-- `IngestEvents` (datasets.go lines 298-362): with zero events it
returns `&ingest.Status{}` immediately (line 311-313); otherwise it builds
the compressed NDJSON pipe and posts it with `Content-Type:
application/x-ndjson` and `Content-Encoding: zstd` (lines 320-352).
Option handling and path building are elided; they do not depend on the
events. -/
def ingestEventsPlan (compress : List Char → List Char)
    (events : List JObj) : IngestPlan :=
  if events.length = 0 then .noRequest IngestStatus.zero
  else .request ContentType.ndjson.toStr ContentEncoding.zstd.toStr
    (ingestEventsBody compress events)

/-- `IngestChannel` (datasets.go lines 370-430): the channel is drained
until closed by the encoder goroutine, and the request is always issued —
the function has no zero-event short circuit.  The model takes the finite
sequence of events the channel yields before it is closed. -/
def ingestChannelPlan (compress : List Char → List Char)
    (events : List JObj) : IngestPlan :=
  .request ContentType.ndjson.toStr ContentEncoding.zstd.toStr
    (ingestEventsBody compress events)

/-- Counterexample for C2: a call to `IngestChannel` whose channel closes
without yielding an event still issues an HTTP request (there is no empty
short circuit in `IngestChannel`), contrary to the claim. -/
theorem ingestChannel_empty_still_requests :
    (ingestChannelPlan id []).isRequest = true := rfl

/-- Claim C2 (amended): a call to `IngestEvents` with zero events succeeds
immediately with the all-zero `IngestStatus` and issues no HTTP request;
`IngestChannel`, by contrast, issues its HTTP request even when the
channel is closed without yielding an event. -/
theorem ingestEvents_empty_short_circuits
    (compress : List Char → List Char) :
    ingestEventsPlan compress [] = .noRequest IngestStatus.zero
    ∧ (ingestChannelPlan compress []).isRequest = true := by
  constructor
  · rfl
  · rfl

/-! ## The encoder goroutine: close order and error propagation
(datasets.go lines 320-344 and 388-412)

The goroutine bodies of `IngestEvents` and `IngestChannel` are identical
up to the event source.  The model records the sequence of observable
actions: chunks written through the compressor, the `zsw.Close()` call and
the final `pw.CloseWithError(...)`.  `zstd.NewWriter`, the per-event
encoding and `zsw.Close` are external effects and enter as parameters
(`Except` results for the fallible ones). -/

/-- One observable action of the encoder goroutine. -/
inductive EncAction : Type where
  | writeChunk (bs : List Char)
  | closeCompressor
  | closePipe (err : Option String)
deriving DecidableEq

/-- The `for ... enc.Encode(event)` loop (datasets.go lines 332-336): the
chunks written before a failure, and the first encoding error if one
occurred (the loop breaks at the first error). -/
def encodeLoop (encode : JObj → Except String (List Char)) :
    List JObj → List (List Char) × Option String
  | [] => ([], none)
  | e :: es =>
    match encode e with
    | .error err => ([], some err)
    | .ok bs => ((bs :: (encodeLoop encode es).1), (encodeLoop encode es).2)

/-- The action trace of the encoder goroutine (datasets.go lines 321-344):
if `zstd.NewWriter` fails the pipe is closed with that error and nothing
else happens; otherwise the events are encoded, `zsw.Close()` is called
unconditionally, and the pipe is closed with the encoding error if one
occurred, else with the close error (lines 338-343). -/
def encoderGoroutine (newWriterErr : Option String)
    (encode : JObj → Except String (List Char)) (events : List JObj)
    (closeErr : Option String) : List EncAction :=
  match newWriterErr with
  | some wErr => [.closePipe (some wErr)]
  | none =>
    ((encodeLoop encode events).1.map EncAction.writeChunk)
      ++ [.closeCompressor,
          .closePipe (match (encodeLoop encode events).2 with
                      | some e => some e
                      | none => closeErr)]

/-- Claim C8: whenever the compressor is created, the goroutine closes it
exactly once, before closing the pipe, on success and on failure alike;
the pipe is closed with the serialization error when one occurred,
otherwise with the compressor's close error (so a close failure takes
precedence only when no prior error is set); and when creating the
compressor fails, the pipe is closed with that error directly. -/
theorem encoderGoroutine_close_order
    (encode : JObj → Except String (List Char)) (events : List JObj)
    (closeErr : Option String) (wErr : String) :
    (∃ ws : List (List Char),
      encoderGoroutine none encode events closeErr
        = ws.map EncAction.writeChunk
          ++ [.closeCompressor,
              .closePipe (match (encodeLoop encode events).2 with
                          | some e => some e
                          | none => closeErr)])
    ∧ encoderGoroutine (some wErr) encode events closeErr
        = [.closePipe (some wErr)] := by
  constructor
  · exact ⟨(encodeLoop encode events).1, rfl⟩
  · rfl

/-! ## `Do`: retry with exponential backoff (client.go lines 235-267)

`Do` executes the request through `backoff.Retry` with an
`ExponentialBackOff` configured at lines 236-239.  The HTTP transport is
external: a run of `Do` is modelled by the sequence of attempt outcomes
the transport would produce (`attempt k` is the outcome of the `k`-th
execution of the request) together with the randomization values drawn by
the backoff library.  Attempts are treated as instantaneous, so the
elapsed time seen by `NextBackOff` is the sum of the completed sleeps. -/

/-- Outcome of one execution of the request by the HTTP client: either the
transport itself fails, or a response with a status code arrives. -/
inductive AttemptOutcome : Type where
  | transportErr (msg : String)
  | response (status : Nat)
deriving DecidableEq

/-- Whether the outcome carries a response. -/
def AttemptOutcome.isResponse : AttemptOutcome → Bool
  | .transportErr _ => false
  | .response _ => true

/-- The operation closure passed to `backoff.Retry` (client.go lines
242-256): a transport error is returned as is; a response with status
at least 500 produces the error `got status code <code>`; anything below
is not retryable and the closure returns nil. -/
def attemptRetryError : AttemptOutcome → Option String
  | .transportErr m => some m
  | .response code =>
      if 500 ≤ code then
        some ("got status code " ++ (⟨natChars code⟩ : String))
      else none

/-- The `ExponentialBackOff` configuration: fields set in `Do` (client.go
lines 236-239) and the library defaults for the rest.  Fractional values
are scaled by 100 to stay in natural numbers. -/
structure BackoffConfig where
  initialIntervalMs : Nat
  multiplierX100 : Nat
  maxElapsedTimeMs : Nat
  randomizationFactorX100 : Nat
  maxIntervalMs : Nat
deriving DecidableEq

/-- The configuration built in `Do`: initial interval 200ms, multiplier
2.0, max elapsed time 10s (client.go lines 237-239); randomization factor
0.5 and max interval 60s are the library defaults. -/
def doBackoffConfig : BackoffConfig :=
  { initialIntervalMs := 200, multiplierX100 := 200,
    maxElapsedTimeMs := 10000, randomizationFactorX100 := 50,
    maxIntervalMs := 60000 }

/-- The backoff current interval before the `n`-th sleep: the initial
interval doubled each retry, capped at the maximal interval. -/
def currentIntervalMs (n : Nat) : Nat :=
  min (doBackoffConfig.initialIntervalMs * 2 ^ n)
    doBackoffConfig.maxIntervalMs

/-- The randomized sleep before retry `n+1`: the current interval scaled
by a factor in `[0.5, 1.5]`; the random draw in `[0, 1]` is modelled as a
percentage `rand n` (clamped to 100). -/
def delayMs (rand : Nat → Nat) (n : Nat) : Nat :=
  currentIntervalMs n / 2 + min (rand n) 100 * currentIntervalMs n / 100

theorem delayMs_ge (rand : Nat → Nat) (n : Nat) : 100 ≤ delayMs rand n := by
  have h : 200 ≤ currentIntervalMs n := by
    have heq : currentIntervalMs n = min (200 * 2 ^ n) 60000 := rfl
    have h2 : 1 ≤ 2 ^ n := Nat.one_le_two_pow
    rw [heq]
    omega
  unfold delayMs
  omega

/-- The retry loop of `backoff.Retry`: run attempt `n`; stop on success;
otherwise ask `NextBackOff`, which returns stop when the elapsed time plus
the next interval exceeds the maximal elapsed time, in which case the last
error is surfaced; otherwise sleep and go again.  Returns the index of the
final attempt. -/
def retryFrom (attempt : Nat → AttemptOutcome) (rand : Nat → Nat)
    (n elapsed : Nat) : Nat :=
  match attemptRetryError (attempt n) with
  | none => n
  | some _ =>
    if doBackoffConfig.maxElapsedTimeMs < elapsed + delayMs rand n then n
    else retryFrom attempt rand (n + 1) (elapsed + delayMs rand n)
  termination_by doBackoffConfig.maxElapsedTimeMs + 1 - elapsed
  decreasing_by
    have h := delayMs_ge rand n
    omega

/-- Elapsed sleep time before attempt `n`. -/
def elapsedBefore (rand : Nat → Nat) : Nat → Nat
  | 0 => 0
  | n + 1 => elapsedBefore rand n + delayMs rand n

/-- Index of the attempt whose outcome `Do` ends up with. -/
def doFinalAttempt (attempt : Nat → AttemptOutcome) (rand : Nat → Nat) :
    Nat :=
  retryFrom attempt rand 0 0

/-- The outcome `Do`'s retry loop returns: that of the final attempt. -/
def doFinalOutcome (attempt : Nat → AttemptOutcome) (rand : Nat → Nat) :
    AttemptOutcome :=
  attempt (doFinalAttempt attempt rand)

theorem retryFrom_spec (attempt : Nat → AttemptOutcome) (rand : Nat → Nat)
    (n e : Nat) (he : e = elapsedBefore rand n) :
    n ≤ retryFrom attempt rand n e
    ∧ (∀ k, n ≤ k → k < retryFrom attempt rand n e →
        attemptRetryError (attempt k) ≠ none)
    ∧ (attemptRetryError (attempt (retryFrom attempt rand n e)) = none
       ∨ doBackoffConfig.maxElapsedTimeMs
           < elapsedBefore rand (retryFrom attempt rand n e)
             + delayMs rand (retryFrom attempt rand n e)) := by
  induction n, e using retryFrom.induct attempt rand with
  | case1 n e heq =>
    have hval : retryFrom attempt rand n e = n := by
      rw [retryFrom.eq_def, heq]
    rw [hval]
    refine ⟨Nat.le_refl n, ?_, Or.inl heq⟩
    intro k h1 h2
    omega
  | case2 n e em heq hstop =>
    have hval : retryFrom attempt rand n e = n := by
      rw [retryFrom.eq_def, heq]
      exact if_pos hstop
    rw [hval]
    refine ⟨Nat.le_refl n, ?_, ?_⟩
    · intro k h1 h2
      omega
    · right
      rw [← he]
      exact hstop
  | case3 n e em heq hstop ih =>
    have hval : retryFrom attempt rand n e
        = retryFrom attempt rand (n + 1) (e + delayMs rand n) := by
      rw [retryFrom.eq_def, heq]
      exact if_neg hstop
    have he2 : e + delayMs rand n = elapsedBefore rand (n + 1) := by
      rw [he]
      rfl
    have ih2 := ih he2
    rw [hval]
    refine ⟨Nat.le_trans (Nat.le_succ n) ih2.1, ?_, ih2.2.2⟩
    intro k h1 h2
    by_cases hk : k = n
    · rw [hk, heq]
      intro hcon
      cases hcon
    · exact ih2.2.1 k (by omega) h2

/-- Claim C5: `Do` is configured with exponential backoff of initial
interval 200ms, multiplier 2.0 and a 10 second total elapsed budget; an
attempt is retried exactly when the transport fails or the status is at
least 500 (never below 500); only retryable attempts are retried; the loop
ends either on a non-retryable outcome or because the budget is exhausted;
and the outcome `Do` returns is that of the last attempt observed. -/
theorem do_retry_policy :
    (doBackoffConfig.initialIntervalMs = 200
     ∧ doBackoffConfig.multiplierX100 = 200
     ∧ doBackoffConfig.maxElapsedTimeMs = 10000)
    ∧ (∀ m, attemptRetryError (.transportErr m) ≠ none)
    ∧ (∀ st, attemptRetryError (.response st) = none ↔ st < 500)
    ∧ (∀ attempt rand,
        doFinalOutcome attempt rand = attempt (doFinalAttempt attempt rand)
        ∧ (∀ k, k < doFinalAttempt attempt rand →
            attemptRetryError (attempt k) ≠ none)
        ∧ (attemptRetryError (doFinalOutcome attempt rand) = none
           ∨ doBackoffConfig.maxElapsedTimeMs
               < elapsedBefore rand (doFinalAttempt attempt rand)
                 + delayMs rand (doFinalAttempt attempt rand))) := by
  refine ⟨⟨rfl, rfl, rfl⟩, ?_, ?_, ?_⟩
  · intro m hcon
    cases hcon
  · intro st
    rw [attemptRetryError]
    constructor
    · intro h
      by_cases h5 : 500 ≤ st
      · rw [if_pos h5] at h
        cases h
      · omega
    · intro h
      rw [if_neg (by omega)]
  · intro attempt rand
    have h := retryFrom_spec attempt rand 0 0 rfl
    exact ⟨rfl, fun k hk => h.2.1 k (Nat.zero_le k) hk, h.2.2⟩

/-- A concrete transport behavior: attempt 0 returns a 500 response,
every later attempt a 200 response. -/
def attemptW : Nat → AttemptOutcome :=
  fun k => if k = 0 then .response 500 else .response 200

/-- A concrete randomization draw: always 50 percent, making each sleep
equal to the current interval. -/
def randW : Nat → Nat := fun _ => 50

theorem attemptW_final : retryFrom attemptW randW 0 0 = 1 := by
  have h0 : attemptRetryError (attemptW 0)
      = some ("got status code " ++ (⟨natChars 500⟩ : String)) := rfl
  have h1 : attemptRetryError (attemptW 1) = none := rfl
  rw [retryFrom.eq_def, h0]
  rw [if_neg (by decide)]
  rw [retryFrom.eq_def, h1]

/-- Witness for C5: with the concrete transport behavior `attemptW` and
randomization `randW`, the retried attempt 0 was retryable and the final
attempt 1 is not retried. -/
theorem do_retry_policy_witness :
    attemptRetryError (attemptW 0) ≠ none
    ∧ attemptRetryError (attemptW 1) = none := by
  have h := do_retry_policy.2.2.2 attemptW randW
  constructor
  · apply h.2.1 0
    rw [doFinalAttempt, attemptW_final]
    omega
  · rcases h.2.2 with h2 | h2
    · rw [doFinalOutcome, doFinalAttempt, attemptW_final] at h2
      exact h2
    · exfalso
      rw [doFinalAttempt, attemptW_final] at h2
      revert h2
      decide

/-! ## `Do`: response body lifecycle (client.go lines 241-263)

Inside the retry closure every received response is stored in the single
variable `resp` (line 248), overwriting the previous one; a transport
error leaves `resp` unchanged.  After the loop one deferred block (lines
258-263) drains and closes `resp.Body` when `resp` is non-nil.  Responses
are identified by the index of the attempt that received them. -/

/-- The attempt indices in `0..n` that received a response. -/
def responsesReceived (attempt : Nat → AttemptOutcome) (n : Nat) :
    List Nat :=
  (List.range (n + 1)).filter (fun k => (attempt k).isResponse)

/-- The value of `resp` after the retry loop whose final attempt is `n`:
the last attempt up to `n` that received a response, if any. -/
def lastResponseIdx (attempt : Nat → AttemptOutcome) (n : Nat) :
    Option Nat :=
  (responsesReceived attempt n).getLast?

/-- The responses whose bodies the deferred block of `Do` drains and
closes: just the final value of `resp`, when non-nil. -/
def closedResponses (attempt : Nat → AttemptOutcome) (rand : Nat → Nat) :
    List Nat :=
  (lastResponseIdx attempt (retryFrom attempt rand 0 0)).toList

theorem getLast?_mem_self (l : List Nat) (k : Nat)
    (h : l.getLast? = some k) : k ∈ l := by
  rcases List.mem_getLast?_eq_getLast (Option.mem_def.mpr h) with ⟨hne, rfl⟩
  exact List.getLast_mem hne

theorem pairwise_lt_getLast_ge (l : List Nat) (h : l.Pairwise (· < ·))
    (x k : Nat) (hx : x ∈ l) (hk : l.getLast? = some k) : x ≤ k := by
  induction l with
  | nil => cases hx
  | cons a t ih =>
    cases t with
    | nil =>
      simp only [List.mem_singleton] at hx
      simp only [List.getLast?_singleton, Option.some.injEq] at hk
      omega
    | cons b t2 =>
      rw [List.getLast?_cons_cons] at hk
      have hpt : (b :: t2).Pairwise (· < ·) := (List.pairwise_cons.mp h).2
      rcases List.mem_cons.mp hx with rfl | hx2
      · have hkmem : k ∈ b :: t2 := getLast?_mem_self _ _ hk
        have hlt : x < k := (List.pairwise_cons.mp h).1 k hkmem
        omega
      · exact ih hpt hx2 hk

theorem responsesReceived_pairwise (attempt : Nat → AttemptOutcome)
    (n : Nat) : (responsesReceived attempt n).Pairwise (· < ·) :=
  (List.pairwise_lt_range (n + 1)).sublist (List.filter_sublist _)

/-- Counterexample for C9: in the run `attemptW`/`randW` (a retried 500
response on attempt 0, then a 200 response), the response of attempt 0 was
received but its body is never drained or closed — `Do` only cleans up the
final value of the `resp` variable. -/
theorem do_leaves_retried_response_unclosed :
    0 ∈ responsesReceived attemptW (retryFrom attemptW randW 0 0)
    ∧ 0 ∉ closedResponses attemptW randW := by
  constructor
  · rw [attemptW_final]
    decide
  · simp only [closedResponses, attemptW_final]
    decide

/-- Claim C9 (amended): the deferred cleanup of `Do` drains and closes
exactly the body of the last response received (on success and on every
error path); responses received on attempts that were subsequently retried
are not closed.  Formally: every closed response is the maximal received
one, and whenever some response was received, exactly one body is
closed. -/
theorem do_closes_exactly_last_response (attempt : Nat → AttemptOutcome)
    (rand : Nat → Nat) :
    (∀ k ∈ closedResponses attempt rand,
      k ∈ responsesReceived attempt (retryFrom attempt rand 0 0)
      ∧ ∀ j ∈ responsesReceived attempt (retryFrom attempt rand 0 0),
          j ≤ k)
    ∧ (responsesReceived attempt (retryFrom attempt rand 0 0) ≠ []
        → ∃ k, closedResponses attempt rand = [k]) := by
  constructor
  · intro k hk
    rw [closedResponses, lastResponseIdx] at hk
    have hsome : (responsesReceived attempt
        (retryFrom attempt rand 0 0)).getLast? = some k := by
      cases hgl : (responsesReceived attempt
          (retryFrom attempt rand 0 0)).getLast? with
      | none =>
        rw [hgl] at hk
        cases hk
      | some x =>
        rw [hgl] at hk
        simp only [Option.toList_some, List.mem_singleton] at hk
        rw [hk]
    refine ⟨getLast?_mem_self _ _ hsome, ?_⟩
    intro j hj
    exact pairwise_lt_getLast_ge _ (responsesReceived_pairwise attempt _)
      j k hj hsome
  · intro hne
    rcases List.exists_mem_of_ne_nil _ hne with ⟨x, hx⟩
    cases hgl : (responsesReceived attempt
        (retryFrom attempt rand 0 0)).getLast? with
    | none =>
      rw [List.getLast?_eq_none_iff] at hgl
      rw [hgl] at hx
      cases hx
    | some k =>
      refine ⟨k, ?_⟩
      rw [closedResponses, lastResponseIdx, hgl]
      rfl

/-- Witness for C9 (amended): the cleanup behavior evaluated on the
concrete run `attemptW`/`randW`: the closed response is attempt 1, the
maximum of the received ones. -/
theorem do_closes_exactly_last_response_witness :
    ∃ k, closedResponses attemptW randW = [k] := by
  apply (do_closes_exactly_last_response attemptW randW).2
  rw [attemptW_final]
  decide

/-! ## `Do`: error classification for non-retried error responses
(client.go lines 269-318)

When the retry loop ends without error and the response status is at
least 400, `Do` maps the status to a typed error.  `newResponse`, the
`Error` and `LimitError` types and `httpStatusLimitExceeded` live in
repository files not included under the embedded sources; they are
modelled from the specification.  The JSON decoding of the error body is
the standard library and enters as a parameter carrying its outcome. -/

/-- Modelled from the spec: the vendor-specific "limit exceeded" HTTP
status code (the constant `httpStatusLimitExceeded` is declared in a
repository file not included under the embedded sources). -/
def httpStatusLimitExceeded : Nat := 430

/-- Modelled from the spec: the rate-limit metadata carried by the
response (limit, remaining, reset). -/
structure LimitInfo where
  limit : Nat
  remaining : Nat
  reset : Nat
deriving DecidableEq

/-- The typed errors `Do` can return for an error status: the sentinel
errors for the well-known codes, the limit error with its metadata, the
generic HTTP error with status and message, and the wrapper for a failed
decode of the error body. -/
inductive DoError : Type where
  | unauthenticated
  | unauthorized
  | notFound
  | alreadyExists
  | limitErr (info : LimitInfo)
  | httpErr (status : Nat) (message : String)
  | decodeFailed (status : Nat) (underlying : String)
deriving DecidableEq

/-- Go `net/http.StatusText` for the status codes this development
mentions (unknown codes give the empty string). -/
def statusText (code : Nat) : String :=
  if code = 400 then "Bad Request"
  else if code = 401 then "Unauthorized"
  else if code = 403 then "Forbidden"
  else if code = 404 then "Not Found"
  else if code = 405 then "Method Not Allowed"
  else if code = 409 then "Conflict"
  else if code = 412 then "Precondition Failed"
  else if code = 429 then "Too Many Requests"
  else ""

/-- `strings.ReplaceAll(s, "\n", " ")` as applied to the raw error body
(client.go line 313). -/
def stripNewlines (s : String) : String :=
  ⟨s.data.map (fun c => if c = '\n' then ' ' else c)⟩

/-- The error classification of `Do` for a non-retried response with
status at least 400 (client.go lines 269-318): the switch on well-known
codes, then the non-JSON content-type fallback to the HTTP status text,
then the decode of the JSON error body with the newline-stripped raw body
as fallback message.  `decoded` is the outcome of the standard library
JSON decode of the body: the decoded `message` field on success. -/
def handleErrorResponse (status : Nat) (lim : LimitInfo)
    (contentType : String) (body : String)
    (decoded : Except String String) : DoError :=
  if status = 401 then .unauthenticated
  else if status = 403 then .unauthorized
  else if status = 404 then .notFound
  else if status = 409 then .alreadyExists
  else if status = 429 ∨ status = httpStatusLimitExceeded then .limitErr lim
  else if !("application/json".data.isPrefixOf contentType.data) then
    .httpErr status (statusText status)
  else
    match decoded with
    | .error e => .decodeFailed status e
    | .ok msg => .httpErr status (if msg = "" then stripNewlines body else msg)

/-- Claim C7: for non-retried error responses, 401 yields the
unauthenticated error, 403 the unauthorized error, 404 not-found, 409
already-exists, and 429 or the vendor-specific limit-exceeded status a
limit error carrying the response's limit metadata; for any other status
a non-JSON body yields a generic error built from the HTTP status text,
and a JSON body is decoded, the raw newline-stripped body standing in for
an empty decoded message. -/
theorem do_error_classification :
    (∀ lim ct b d, handleErrorResponse 401 lim ct b d = .unauthenticated)
    ∧ (∀ lim ct b d, handleErrorResponse 403 lim ct b d = .unauthorized)
    ∧ (∀ lim ct b d, handleErrorResponse 404 lim ct b d = .notFound)
    ∧ (∀ lim ct b d, handleErrorResponse 409 lim ct b d = .alreadyExists)
    ∧ (∀ lim ct b d, handleErrorResponse 429 lim ct b d = .limitErr lim
        ∧ handleErrorResponse httpStatusLimitExceeded lim ct b d
            = .limitErr lim)
    ∧ (∀ st lim ct b d,
        st ≠ 401 → st ≠ 403 → st ≠ 404 → st ≠ 409 → st ≠ 429 →
        st ≠ httpStatusLimitExceeded →
        "application/json".data.isPrefixOf ct.data = false →
        handleErrorResponse st lim ct b d = .httpErr st (statusText st))
    ∧ (∀ st lim ct b msg,
        st ≠ 401 → st ≠ 403 → st ≠ 404 → st ≠ 409 → st ≠ 429 →
        st ≠ httpStatusLimitExceeded →
        "application/json".data.isPrefixOf ct.data = true →
        handleErrorResponse st lim ct b (.ok msg)
          = .httpErr st (if msg = "" then stripNewlines b else msg)) := by
  refine ⟨?_, ?_, ?_, ?_, ?_, ?_, ?_⟩
  · intro lim ct b d
    rfl
  · intro lim ct b d
    rfl
  · intro lim ct b d
    rfl
  · intro lim ct b d
    rfl
  · intro lim ct b d
    constructor
    · rfl
    · rfl
  · intro st lim ct b d h1 h2 h3 h4 h5 h6 hct
    rw [handleErrorResponse.eq_def, if_neg h1, if_neg h2, if_neg h3,
      if_neg h4, if_neg (by rw [not_or]; exact ⟨h5, h6⟩),
      if_pos (by rw [hct]; rfl)]
  · intro st lim ct b msg h1 h2 h3 h4 h5 h6 hct
    rw [handleErrorResponse.eq_def, if_neg h1, if_neg h2, if_neg h3,
      if_neg h4, if_neg (by rw [not_or]; exact ⟨h5, h6⟩),
      if_neg (by rw [hct]; simp)]

/-- Witness for C7: the classification evaluated at concrete inputs — a
400 with a plain-text body maps to the generic "Bad Request" error, and a
400 with a JSON body whose decoded message is empty falls back to the
newline-stripped raw body. -/
theorem do_error_classification_witness :
    handleErrorResponse 400 ⟨1, 0, 0⟩ "text/plain" "boom" (.ok "")
      = .httpErr 400 (statusText 400)
    ∧ handleErrorResponse 400 ⟨1, 0, 0⟩ "application/json" "a\nb" (.ok "")
      = .httpErr 400 (stripNewlines "a\nb") := by
  constructor
  · exact do_error_classification.2.2.2.2.2.1 400 ⟨1, 0, 0⟩ "text/plain"
      "boom" (.ok "") (by decide) (by decide) (by decide) (by decide)
      (by decide) (by decide) (by decide)
  · have h := do_error_classification.2.2.2.2.2.2 400 ⟨1, 0, 0⟩
      "application/json" "a\nb" "" (by decide) (by decide) (by decide)
      (by decide) (by decide) (by decide) (by rfl)
    simpa using h

/-! ## `NewRequest`: body handling (client.go lines 188-213)

A `nil` body gives a request without body; a body that implements
`io.Reader` is used directly; any other body is JSON-encoded with
`json.Encoder.Encode` (which appends one newline) into a buffer.  The
`Content-Type` header is set to `application/json` for an encoded body,
to `application/octet-stream` for a reader body, and not at all when
there is no body. -/

/-- The `body any` argument of `NewRequest`, split by the type switch the
code performs: nil, an `io.Reader` (with the bytes it yields), or any
other value (with its JSON value). -/
inductive RequestBody : Type where
  | noBody
  | reader (bs : List Char)
  | jsonValue (v : JValue)

/-- The byte stream `NewRequest` attaches as the request body
(client.go lines 188-200): none for a nil body, the reader's bytes
verbatim, or the JSON encoding of the value followed by the newline
`json.Encoder.Encode` writes. -/
def newRequestBodyStream : RequestBody → Option (List Char)
  | .noBody => none
  | .reader bs => some bs
  | .jsonValue v => some (jser v ++ ['\n'])

/-- The `Content-Type` header `NewRequest` sets (client.go lines
208-213). -/
def newRequestContentType : RequestBody → Option String
  | .noBody => none
  | .reader _ => some "application/octet-stream"
  | .jsonValue _ => some "application/json"

/-- Claim C10: `NewRequest` attaches no body and no `Content-Type` for a
nil body; uses an `io.Reader` body verbatim with `Content-Type:
application/octet-stream`; and JSON-encodes any other body with
`Content-Type: application/json`. -/
theorem newRequest_body_handling :
    (newRequestBodyStream .noBody = none
      ∧ newRequestContentType .noBody = none)
    ∧ (∀ bs, newRequestBodyStream (.reader bs) = some bs
      ∧ newRequestContentType (.reader bs)
          = some "application/octet-stream")
    ∧ (∀ v, newRequestBodyStream (.jsonValue v) = some (jser v ++ ['\n'])
      ∧ newRequestContentType (.jsonValue v) = some "application/json") := by
  refine ⟨⟨rfl, rfl⟩, ?_, ?_⟩
  · intro bs
    exact ⟨rfl, rfl⟩
  · intro v
    exact ⟨rfl, rfl⟩

/-! ## `NewRequest`: the API-token path gate (client.go lines 45 and
184-186)

`validOnlyAPITokenPaths` is the anchored regular expression
`^/api/v1/datasets/([^/]+/(ingest|query)|_apl)(\?.+)?$`.  The matcher
below implements it directly: after the literal prefix, the alternation
is either a non-empty slash-free segment followed by `/ingest` or
`/query`, or the literal `_apl`, followed by the optional group of a
literal `?` and one or more non-newline characters (RE2 `.` does not
match a newline; a negated class such as `[^/]` does).  Because `[^/]+`
cannot contain a slash and must be followed by one, it is exactly the
maximal slash-free prefix of the remainder, so the matcher needs no
backtracking. -/

/-- The trailing `(\?.+)?$` of the regex. -/
def matchOptQuery : List Char → Bool
  | [] => true
  | c :: rest => c == '?' && !rest.isEmpty && nlFree rest

/-- The `(ingest|query)(\?.+)?$` part of the regex. -/
def matchIngestOrQuery (m : List Char) : Bool :=
  ("ingest".data.isPrefixOf m && matchOptQuery (m.drop 6))
  || ("query".data.isPrefixOf m && matchOptQuery (m.drop 5))

/-- The `([^/]+/(ingest|query)|_apl)(\?.+)?$` part of the regex, applied
to the remainder after the literal prefix. -/
def matchAfterDatasets (m : List Char) : Bool :=
  (!(m.takeWhile (fun c => c != '/')).isEmpty
    && (match m.dropWhile (fun c => c != '/') with
        | '/' :: r => matchIngestOrQuery r
        | _ => false))
  || ("_apl".data.isPrefixOf m && matchOptQuery (m.drop 4))

/-- The full anchored regex `validOnlyAPITokenPaths` (client.go line 45)
as a matcher on the endpoint path. -/
def validOnlyAPITokenPaths (p : String) : Bool :=
  "/api/v1/datasets/".data.isPrefixOf p.data
    && matchAfterDatasets (p.data.drop 17)

/-- The error `NewRequest` returns for an API token outside the allowed
paths (`ErrUnprivilegedToken` is declared in a repository file not
included under the embedded sources). -/
inductive ClientError : Type where
  | unprivilegedToken
deriving DecidableEq

/-- The authentication gate of `NewRequest` (client.go lines 184-186):
when the access token is API-scoped and the endpoint path does not match
`validOnlyAPITokenPaths`, the request fails locally with
`ErrUnprivilegedToken` before any transport activity; otherwise request
construction proceeds toward the transport layer.  `config.IsAPIToken`
classifies the configured credential outside the embedded sources and
enters as a boolean. -/
def newRequestTokenGate (isAPIToken : Bool) (path : String) :
    Option ClientError :=
  if isAPIToken && !(validOnlyAPITokenPaths path) then
    some .unprivilegedToken
  else none

/-- The optional `(\?.+)?` tail, stated as a proposition. -/
def OptQueryTail (t : List Char) : Prop :=
  t = [] ∨ ∃ r, r ≠ [] ∧ (∀ c ∈ r, c ≠ '\n') ∧ t = '?' :: r

/-- The allow-list stated as in the specification: dataset ingest,
dataset query, and APL query paths (each with an optional query tail). -/
def AllowListedPath (p : String) : Prop :=
  (∃ ds t, ds ≠ [] ∧ (∀ c ∈ ds, c ≠ '/') ∧ OptQueryTail t ∧
    (p.data = "/api/v1/datasets/".data ++ ds ++ "/ingest".data ++ t
     ∨ p.data = "/api/v1/datasets/".data ++ ds ++ "/query".data ++ t))
  ∨ (∃ t, OptQueryTail t ∧ p.data = "/api/v1/datasets/_apl".data ++ t)

theorem nlFree_iff (l : List Char) :
    nlFree l = true ↔ ∀ c ∈ l, c ≠ '\n' := by
  simp [nlFree, List.all_eq_true, bne_iff_ne]

theorem matchOptQuery_iff (t : List Char) :
    matchOptQuery t = true ↔ OptQueryTail t := by
  cases t with
  | nil =>
    constructor
    · intro _
      exact Or.inl rfl
    · intro _
      rfl
  | cons c rest =>
    rw [matchOptQuery, OptQueryTail]
    constructor
    · intro h
      rcases Bool.and_eq_true_iff.mp h with ⟨h1, h2⟩
      rcases Bool.and_eq_true_iff.mp h1 with ⟨hc, hne⟩
      right
      refine ⟨rest, ?_, (nlFree_iff rest).mp h2, ?_⟩
      · intro hcon
        rw [hcon] at hne
        cases hne
      · rw [beq_iff_eq.mp hc]
    · intro h
      rcases h with h | ⟨r, hr1, hr2, hr3⟩
      · cases h
      · injection hr3 with hc hrest
        rw [hc, hrest]
        have hne : r.isEmpty = false := by
          cases r with
          | nil => exact absurd rfl hr1
          | cons a b => rfl
        rw [Bool.and_assoc]
        apply Bool.and_eq_true_iff.mpr
        refine ⟨beq_iff_eq.mpr rfl, ?_⟩
        apply Bool.and_eq_true_iff.mpr
        exact ⟨by rw [hne]; rfl, (nlFree_iff r).mpr hr2⟩

theorem prefix_drop_eq (l m : List Char) (h : l.isPrefixOf m = true) :
    m = l ++ m.drop l.length := by
  rcases List.isPrefixOf_iff_prefix.mp h with ⟨t, rfl⟩
  rw [List.drop_left]

theorem matchIngestOrQuery_iff (r : List Char) :
    matchIngestOrQuery r = true
      ↔ ∃ t, OptQueryTail t
          ∧ (r = "ingest".data ++ t ∨ r = "query".data ++ t) := by
  constructor
  · intro h
    rcases Bool.or_eq_true_iff.mp h with h1 | h1 <;>
      rcases Bool.and_eq_true_iff.mp h1 with ⟨hp, hq⟩
    · exact ⟨r.drop 6, (matchOptQuery_iff _).mp hq,
        Or.inl (prefix_drop_eq _ _ hp)⟩
    · exact ⟨r.drop 5, (matchOptQuery_iff _).mp hq,
        Or.inr (prefix_drop_eq _ _ hp)⟩
  · intro h
    rcases h with ⟨t, ht, rfl | rfl⟩
    · apply Bool.or_eq_true_iff.mpr
      left
      apply Bool.and_eq_true_iff.mpr
      refine ⟨List.isPrefixOf_iff_prefix.mpr ⟨t, rfl⟩, ?_⟩
      have h6 : ("ingest".data ++ t).drop 6 = t := by
        rw [show (6 : Nat) = "ingest".data.length from rfl, List.drop_left]
      rw [h6]
      exact (matchOptQuery_iff t).mpr ht
    · apply Bool.or_eq_true_iff.mpr
      right
      apply Bool.and_eq_true_iff.mpr
      refine ⟨List.isPrefixOf_iff_prefix.mpr ⟨t, rfl⟩, ?_⟩
      have h5 : ("query".data ++ t).drop 5 = t := by
        rw [show (5 : Nat) = "query".data.length from rfl, List.drop_left]
      rw [h5]
      exact (matchOptQuery_iff t).mpr ht

theorem takeWhile_slash_decomp (ds r : List Char)
    (h : ∀ c ∈ ds, c ≠ '/') :
    (ds ++ '/' :: r).takeWhile (fun c => c != '/') = ds
    ∧ (ds ++ '/' :: r).dropWhile (fun c => c != '/') = '/' :: r := by
  induction ds with
  | nil =>
    constructor
    · rw [List.nil_append, List.takeWhile_cons]
      simp
    · rw [List.nil_append, List.dropWhile_cons]
      simp
  | cons a t ih =>
    have ha : (a != '/') = true := bne_iff_ne.mpr (h a (by simp))
    have iht := ih (fun c hc => h c (by simp [hc]))
    constructor
    · rw [List.cons_append, List.takeWhile_cons, ha]
      simp only [if_true, iht.1]
    · rw [List.cons_append, List.dropWhile_cons, ha]
      simp only [if_true, iht.2]

theorem matchAfterDatasets_iff (m : List Char) :
    matchAfterDatasets m = true
      ↔ ((∃ ds t, ds ≠ [] ∧ (∀ c ∈ ds, c ≠ '/') ∧ OptQueryTail t ∧
            (m = ds ++ "/ingest".data ++ t ∨ m = ds ++ "/query".data ++ t))
         ∨ (∃ t, OptQueryTail t ∧ m = "_apl".data ++ t)) := by
  constructor
  · intro h
    rcases Bool.or_eq_true_iff.mp h with h1 | h1
    · rcases Bool.and_eq_true_iff.mp h1 with ⟨hne, hm⟩
      left
      split at hm
      · rename_i r heq
        rcases (matchIngestOrQuery_iff r).mp hm with ⟨t, ht, hcase⟩
        have hsplit : m.takeWhile (fun c => c != '/')
            ++ m.dropWhile (fun c => c != '/') = m :=
          List.takeWhile_append_dropWhile _ _
        refine ⟨m.takeWhile (fun c => c != '/'), t, ?_, ?_, ht, ?_⟩
        · intro hcon
          rw [hcon] at hne
          cases hne
        · intro c hc2
          have h3 := List.mem_takeWhile_imp (p := fun c => c != '/') hc2
          exact bne_iff_ne.mp h3
        · rcases hcase with rfl | rfl
          · left
            conv_lhs => rw [← hsplit]
            rw [heq, List.append_assoc]
            rfl
          · right
            conv_lhs => rw [← hsplit]
            rw [heq, List.append_assoc]
            rfl
      · cases hm
    · rcases Bool.and_eq_true_iff.mp h1 with ⟨hp, hq⟩
      right
      exact ⟨m.drop 4, (matchOptQuery_iff _).mp hq, prefix_drop_eq _ _ hp⟩
  · intro h
    rcases h with ⟨ds, t, hds, hsl, ht, rfl | rfl⟩ | ⟨t, ht, rfl⟩
    · apply Bool.or_eq_true_iff.mpr
      left
      have hre : ds ++ "/ingest".data ++ t = ds ++ '/' :: ("ingest".data ++ t) := by
        rw [List.append_assoc]
        rfl
      rw [hre]
      have hdec := takeWhile_slash_decomp ds ("ingest".data ++ t) hsl
      apply Bool.and_eq_true_iff.mpr
      constructor
      · rw [hdec.1]
        cases ds with
        | nil => exact absurd rfl hds
        | cons a b => rfl
      · rw [hdec.2]
        exact (matchIngestOrQuery_iff _).mpr ⟨t, ht, Or.inl rfl⟩
    · apply Bool.or_eq_true_iff.mpr
      left
      have hre : ds ++ "/query".data ++ t = ds ++ '/' :: ("query".data ++ t) := by
        rw [List.append_assoc]
        rfl
      rw [hre]
      have hdec := takeWhile_slash_decomp ds ("query".data ++ t) hsl
      apply Bool.and_eq_true_iff.mpr
      constructor
      · rw [hdec.1]
        cases ds with
        | nil => exact absurd rfl hds
        | cons a b => rfl
      · rw [hdec.2]
        exact (matchIngestOrQuery_iff _).mpr ⟨t, ht, Or.inr rfl⟩
    · apply Bool.or_eq_true_iff.mpr
      right
      apply Bool.and_eq_true_iff.mpr
      refine ⟨List.isPrefixOf_iff_prefix.mpr ⟨t, rfl⟩, ?_⟩
      have h4 : ("_apl".data ++ t).drop 4 = t := by
        rw [show (4 : Nat) = "_apl".data.length from rfl, List.drop_left]
      rw [h4]
      exact (matchOptQuery_iff t).mpr ht

theorem validOnlyAPITokenPaths_iff (p : String) :
    validOnlyAPITokenPaths p = true ↔ AllowListedPath p := by
  rw [validOnlyAPITokenPaths]
  constructor
  · intro h
    rcases Bool.and_eq_true_iff.mp h with ⟨hpre, haft⟩
    have hp : p.data = "/api/v1/datasets/".data ++ p.data.drop 17 :=
      prefix_drop_eq _ _ hpre
    rcases (matchAfterDatasets_iff _).mp haft with
      ⟨ds, t, hds, hsl, ht, hcase⟩ | ⟨t, ht, heq⟩
    · left
      refine ⟨ds, t, hds, hsl, ht, ?_⟩
      rcases hcase with heq | heq
      · left
        rw [hp, heq]
        simp [List.append_assoc]
      · right
        rw [hp, heq]
        simp [List.append_assoc]
    · right
      refine ⟨t, ht, ?_⟩
      rw [hp, heq, ← List.append_assoc]
      rfl
  · intro h
    apply Bool.and_eq_true_iff.mpr
    rcases h with ⟨ds, t, hds, hsl, ht, heq | heq⟩ | ⟨t, ht, heq⟩
    · have hp : p.data
          = "/api/v1/datasets/".data ++ (ds ++ "/ingest".data ++ t) := by
        rw [heq]
        simp [List.append_assoc]
      constructor
      · exact List.isPrefixOf_iff_prefix.mpr ⟨_, hp.symm⟩
      · have hdrop : p.data.drop 17 = ds ++ "/ingest".data ++ t := by
          rw [hp, show (17 : Nat) = "/api/v1/datasets/".data.length from rfl,
            List.drop_left]
        rw [hdrop]
        exact (matchAfterDatasets_iff _).mpr
          (Or.inl ⟨ds, t, hds, hsl, ht, Or.inl rfl⟩)
    · have hp : p.data
          = "/api/v1/datasets/".data ++ (ds ++ "/query".data ++ t) := by
        rw [heq]
        simp [List.append_assoc]
      constructor
      · exact List.isPrefixOf_iff_prefix.mpr ⟨_, hp.symm⟩
      · have hdrop : p.data.drop 17 = ds ++ "/query".data ++ t := by
          rw [hp, show (17 : Nat) = "/api/v1/datasets/".data.length from rfl,
            List.drop_left]
        rw [hdrop]
        exact (matchAfterDatasets_iff _).mpr
          (Or.inl ⟨ds, t, hds, hsl, ht, Or.inr rfl⟩)
    · have hp : p.data = "/api/v1/datasets/".data ++ ("_apl".data ++ t) := by
        rw [heq]
        rfl
      constructor
      · exact List.isPrefixOf_iff_prefix.mpr ⟨_, hp.symm⟩
      · have hdrop : p.data.drop 17 = "_apl".data ++ t := by
          rw [hp, show (17 : Nat) = "/api/v1/datasets/".data.length from rfl,
            List.drop_left]
        rw [hdrop]
        exact (matchAfterDatasets_iff _).mpr (Or.inr ⟨t, ht, rfl⟩)

/-- Counterexample for C4: the ingest-token validation path (the path the
repository's own test suite names for that endpoint) is rejected by the
gate for an API-scoped token — the regex admits only dataset ingest,
dataset query and APL query paths, so the claimed allow-list member
"ingest-token validation" does not reach the transport layer. -/
theorem api_token_gate_rejects_token_validation :
    newRequestTokenGate true "/api/v1/tokens/ingest/validate"
      = some .unprivilegedToken := by
  rfl

/-- Claim C4 (amended): with an API-scoped token, `NewRequest` fails
locally with `ErrUnprivilegedToken` exactly when the target path is
outside the allow-list consisting of dataset ingest, dataset query and
APL query (ingest-token validation is not admitted by the regex); in
particular `/api/v1/datasets` is rejected while
`/api/v1/datasets/test/ingest` passes the gate, and a non-API-scoped
token is never gated. -/
theorem newRequest_api_token_gate (isAPI : Bool) (p : String) :
    (newRequestTokenGate isAPI p = some .unprivilegedToken
      ↔ (isAPI = true ∧ ¬ AllowListedPath p))
    ∧ newRequestTokenGate true "/api/v1/datasets" = some .unprivilegedToken
    ∧ newRequestTokenGate true "/api/v1/datasets/test/ingest" = none
    ∧ newRequestTokenGate false p = none := by
  refine ⟨?_, by rfl, by rfl, by rw [newRequestTokenGate]; rfl⟩
  rw [newRequestTokenGate]
  constructor
  · intro h
    by_cases hg : (isAPI && !validOnlyAPITokenPaths p) = true
    · rcases Bool.and_eq_true_iff.mp hg with ⟨hapi, hval⟩
      refine ⟨hapi, ?_⟩
      intro hallow
      have hval2 := (validOnlyAPITokenPaths_iff p).mpr hallow
      rw [hval2] at hval
      cases hval
    · rw [if_neg hg] at h
      cases h
  · rintro ⟨hapi, hallow⟩
    have hval : validOnlyAPITokenPaths p = false := by
      cases hv : validOnlyAPITokenPaths p with
      | false => rfl
      | true => exact absurd ((validOnlyAPITokenPaths_iff p).mp hv) hallow
    rw [hapi, hval]
    rfl

/-- Witness for C4 (amended): the gate evaluated at the concrete allowed
path `/api/v1/datasets/test/ingest?x` with an API token. -/
theorem newRequest_api_token_gate_witness :
    newRequestTokenGate true "/api/v1/datasets/test/ingest?x" = none := by
  have h := (newRequest_api_token_gate true "/api/v1/datasets/test/ingest?x").1
  cases hg : newRequestTokenGate true "/api/v1/datasets/test/ingest?x" with
  | none => rfl
  | some e =>
    cases e
    have h2 := (h.mp hg).2
    exfalso
    apply h2
    left
    refine ⟨"test".data, "?x".data, by decide, by decide, ?_, Or.inl (by decide)⟩
    right
    exact ⟨"x".data, by decide, by decide, rfl⟩

end AxiomGo
